import Mathlib

/-!
Shallow embedding of the pnm_dashboard core pipeline:
`modules/data_processor.py`, `modules/config.py` and
`modules/bigquery_manager.py`.

Rows of the pandas DataFrames are modelled as Lean structures and
DataFrames as `List`s of rows.  `sort_values` on several columns is
pandas' stable lexicographic sort and is modelled by the stable
`List.mergeSort`; `drop_duplicates(subset, keep='first')` keeps the first
row per key and is modelled by a first-occurrence filter; the dicts built
by `set_index('_key')[col].to_dict()` keep the last row per key and are
modelled by a last-occurrence lookup.
-/

namespace Pnm

open List

/-- A calendar date `(year, month, day)`.  Ordered lexicographically,
which coincides with chronological order for valid dates (the
`pd.Timestamp` comparisons in the source). -/
structure Date where
  year : Nat
  month : Nat
  day : Nat
  deriving DecidableEq, Repr

/-- A lawful three-way comparison: antisymmetric under `Ordering.swap` and
transitive on the associated `≤` relation (`cmp a b ≠ .gt`). -/
structure CmpLaw {α : Type} (cmp : α → α → Ordering) : Prop where
  symm : ∀ a b, cmp a b = (cmp b a).swap
  le_trans : ∀ a b c, cmp a b ≠ .gt → cmp b c ≠ .gt → cmp a c ≠ .gt

/-- Three-way comparison induced by a linear order. -/
def cmpLin {α : Type} [LinearOrder α] (a b : α) : Ordering :=
  if a < b then .lt else if b < a then .gt else .eq

/-- Boolean `≤` induced by a three-way comparison (used as the `le`
argument of the stable `List.mergeSort`). -/
def cmpLe {α : Type} (cmp : α → α → Ordering) (a b : α) : Bool :=
  decide (cmp a b ≠ .gt)

/-- Lexicographic comparison of dates (chronological order). -/
def cmpDate (a b : Date) : Ordering :=
  (cmpLin a.year b.year).then ((cmpLin a.month b.month).then (cmpLin a.day b.day))

/-- `a ≤ b` on dates, as a Boolean. -/
def dateLe (a b : Date) : Bool := cmpLe cmpDate a b

/-- `get_bimonth_period` (`modules/data_processor.py`, line 43):
`(month - 1) // 2 + 1`, giving Jan-Feb=1, ..., Nov-Dec=6. -/
def get_bimonth_period (month : Nat) : Nat := (month - 1) / 2 + 1

/-- `calendar.isleap` as used by `calendar.monthrange`. -/
def isleap (y : Nat) : Bool := y % 4 == 0 && (y % 100 != 0 || y % 400 == 0)

/-- `calendar.monthrange(y, m)[1]`: the number of days of month `m` of
year `y`. -/
def monthrange_days (y m : Nat) : Nat :=
  if m = 2 then (if isleap y then 29 else 28)
  else if m = 4 ∨ m = 6 ∨ m = 9 ∨ m = 11 then 30
  else 31

/-- Validity of a `(year, month, day)` triple, guaranteed by
`datetime.date` for the source's inputs. -/
def validDate (d : Date) : Prop :=
  1 ≤ d.month ∧ d.month ≤ 12 ∧ 1 ≤ d.day ∧ d.day ≤ monthrange_days d.year d.month

/-- `get_bimonth_date_range` (`modules/data_processor.py`, lines 46-80). -/
def get_bimonth_date_range (start_date end_date : Date) : Date × Date :=
  let start_period := get_bimonth_period start_date.month
  let start_bucket_first_month := (start_period - 1) * 2 + 1
  let expanded_start : Date := ⟨start_date.year, start_bucket_first_month, 1⟩
  let end_period := get_bimonth_period end_date.month
  let end_bucket_last_month := end_period * 2
  let last_day := monthrange_days end_date.year end_bucket_last_month
  let expanded_end : Date := ⟨end_date.year, end_bucket_last_month, last_day⟩
  (expanded_start, expanded_end)

/-- `leadsChars n h`: `n` is a leading segment of `h` (substring-search
helper). -/
def leadsChars : List Char → List Char → Bool
  | [], _ => true
  | _ :: _, [] => false
  | a :: as, b :: bs => a == b && leadsChars as bs

/-- Python's substring test `n in h`, on character lists. -/
def hasSubChars : List Char → List Char → Bool
  | n, [] => leadsChars n []
  | n, c :: cs => leadsChars n (c :: cs) || hasSubChars n cs

/-- Python's `needle in hay` on strings. -/
def strContains (hay needle : String) : Bool := hasSubChars needle.data hay.data

/-- The row-level `get_final_source` inside `calculate_final_source`
(`modules/data_processor.py`, lines 211-223). -/
def get_final_source (first_user session : String) : String :=
  if first_user = "NA" then
    if strContains session "Brand" then "FT_Organic"
    else if session ≠ "NA" then session
    else first_user
  else first_user

/-- Modelled from the spec's wording of `compute_final_source` (spec §4.1),
for comparison with the code's `get_final_source`. -/
def spec_compute_final_source (first_touch session_campaign : String) : String :=
  if first_touch = "NA" then
    if strContains session_campaign "Brand" then "FT_Organic"
    else if session_campaign ≠ "NA" then session_campaign
    else "NA"
  else first_touch

/-- Lexicographic comparison of character lists by code point (Python's
string comparison). -/
def cmpCharList : List Char → List Char → Ordering
  | [], [] => .eq
  | [], _ :: _ => .lt
  | _ :: _, [] => .gt
  | a :: as, b :: bs => (cmpLin a.toNat b.toNat).then (cmpCharList as bs)

/-- Python's string comparison (by code points). -/
def cmpString (a b : String) : Ordering := cmpCharList a.data b.data

/-- `STATUS_PRIORITY` (`modules/config.py`, lines 16-22), as the partial
map `Series.map` uses. -/
def STATUS_PRIORITY (s : String) : Option Nat :=
  if s = "Open" then some 1
  else if s = "Prospect" then some 2
  else if s = "Quoted" then some 3
  else if s = "Closed" then some 4
  else if s = "Converted" then some 5
  else none

/-- `sf_df['Status'].map(STATUS_PRIORITY).fillna(0)`: unknown statuses get
priority `0`. -/
def statusPriority (s : String) : Nat := (STATUS_PRIORITY s).getD 0

/-- One row of the Salesforce DataFrame as `dedupe_salesforce_by_priority`
sees it: `Mobile`, the parsed `House Shifting Opportunity: Created Date`,
`Status`, and the remaining columns abstracted into an opaque payload. -/
structure SFRecord where
  Mobile : String
  CreatedDate : Date
  Status : String
  payload : String
  deriving DecidableEq, Repr

/-- The helper column `_Year` (`dt.year` of the created date). -/
def sfYear (r : SFRecord) : Nat := r.CreatedDate.year

/-- The helper column `_Period` (`get_bimonth_period` of the month). -/
def sfPeriod (r : SFRecord) : Nat := get_bimonth_period r.CreatedDate.month

/-- The dedup group key `['Mobile', '_Year', '_Period']`. -/
def sfKey (r : SFRecord) : String × Nat × Nat := (r.Mobile, sfYear r, sfPeriod r)

/-- The comparison behind
`sort_values(['Mobile','_Year','_Period','_Priority', date_col],
ascending=[True, True, True, False, False])`. -/
def cmpSF (a b : SFRecord) : Ordering :=
  (cmpString a.Mobile b.Mobile).then
    ((cmpLin (sfYear a) (sfYear b)).then
      ((cmpLin (sfPeriod a) (sfPeriod b)).then
        ((cmpLin (statusPriority b.Status) (statusPriority a.Status)).then
          (cmpDate b.CreatedDate a.CreatedDate))))

/-- The sort order of the CRM dedup, as a relation. -/
def sfLe (a b : SFRecord) : Prop := cmpSF a b ≠ .gt

instance : DecidableRel sfLe :=
  fun a b => decidable_of_iff (cmpSF a b ≠ Ordering.gt) Iff.rfl

/-- One row of the GA DataFrame as `remove_duplicates_bimonth_ga` sees it:
`Mobile`, the parsed `Date`, and the remaining columns abstracted into an
opaque payload. -/
structure GARecord where
  Mobile : String
  Date : Date
  payload : String
  deriving DecidableEq, Repr

/-- The helper column `_Year`. -/
def gaYear (r : GARecord) : Nat := r.Date.year

/-- The helper column `_Period`. -/
def gaPeriod (r : GARecord) : Nat := get_bimonth_period r.Date.month

/-- The dedup group key `['Mobile', '_Year', '_Period']`. -/
def gaKey (r : GARecord) : String × Nat × Nat := (r.Mobile, gaYear r, gaPeriod r)

/-- The comparison behind
`sort_values(['Mobile','_Year','_Period','Date'], ascending=True)`. -/
def cmpGA (a b : GARecord) : Ordering :=
  (cmpString a.Mobile b.Mobile).then
    ((cmpLin (gaYear a) (gaYear b)).then
      ((cmpLin (gaPeriod a) (gaPeriod b)).then (cmpDate a.Date b.Date)))

/-- The multi-column sort order of the GA dedup, as a relation. -/
def gaLe (a b : GARecord) : Prop := cmpGA a b ≠ .gt

instance : DecidableRel gaLe :=
  fun a b => decidable_of_iff (cmpGA a b ≠ Ordering.gt) Iff.rfl

/-- The final chronological re-sort `sort_values('Date')`, as a relation. -/
def gaDateLe (a b : GARecord) : Prop := cmpDate a.Date b.Date ≠ .gt

instance : DecidableRel gaDateLe :=
  fun a b => decidable_of_iff (cmpDate a.Date b.Date ≠ Ordering.gt) Iff.rfl

/-- `drop_duplicates(subset=key, keep='first')`: scanning left to right,
keep a row only if its key was not seen before; `seen` holds the keys of
the rows already kept. -/
def dropDupsBy {α κ : Type} [DecidableEq κ] (key : α → κ) : List κ → List α → List α
  | _, [] => []
  | seen, a :: as =>
    if key a ∈ seen then dropDupsBy key seen as
    else a :: dropDupsBy key (key a :: seen) as

/-- `dedupe_salesforce_by_priority` (`modules/data_processor.py`, lines
120-163): stable sort by (Mobile, year, period) ascending then
(priority, created date) descending, and keep the first row per
(Mobile, year, period).  Dropping the helper columns and
`reset_index` do not change the rows. -/
def dedupe_salesforce_by_priority (sf_df : List SFRecord) : List SFRecord :=
  if sf_df = [] then sf_df
  else dropDupsBy sfKey [] (List.insertionSort sfLe sf_df)

/-- `remove_duplicates_bimonth_ga` (`modules/data_processor.py`, lines
83-117): stable sort by (Mobile, year, period, date) ascending, keep the
first (oldest) row per (Mobile, year, period), then re-sort
chronologically.  pandas' final single-column sort has
implementation-defined tie order; the properties proved below do not
depend on the tie order, so a stable sort stands in for it. -/
def remove_duplicates_bimonth_ga (df : List GARecord) : List GARecord :=
  if df = [] then df
  else List.insertionSort gaDateLe (dropDupsBy gaKey [] (List.insertionSort gaLe df))

/-- Concrete CRM rows for the C5 witness: same mobile, both in the
Jan-Feb 2024 period, with different statuses. -/
def sfW1 : SFRecord := ⟨"9000000001", ⟨2024, 1, 10⟩, "Open", "a"⟩

/-- Second concrete CRM row for the C5 witness. -/
def sfW2 : SFRecord := ⟨"9000000001", ⟨2024, 2, 5⟩, "Quoted", "b"⟩

/-- Concrete GA rows for the C6 witness: same mobile, both in the
Mar-Apr 2024 period. -/
def gaW1 : GARecord := ⟨"9000000003", ⟨2024, 3, 12⟩, "x"⟩

/-- Second concrete GA row for the C6 witness. -/
def gaW2 : GARecord := ⟨"9000000003", ⟨2024, 4, 2⟩, "y"⟩

/-- CRM row with earlier date but lexicographically later mobile, for the
C9 counterexample. -/
def sfX1 : SFRecord := ⟨"2", ⟨2024, 1, 1⟩, "Open", ""⟩

/-- CRM row with later date but lexicographically earlier mobile, for the
C9 counterexample. -/
def sfX2 : SFRecord := ⟨"1", ⟨2024, 3, 5⟩, "Open", ""⟩

/-- The five known status values of `STATUS_PRIORITY`
(`modules/config.py`). -/
def knownStatuses : List String := ["Open", "Prospect", "Quoted", "Closed", "Converted"]

/-- CRM row with an unknown status, for the C10 witness. -/
def sfW3 : SFRecord := ⟨"9000000002", ⟨2024, 1, 3⟩, "Junk", "c"⟩

/-- CRM row with a known status in the same group, for the C10 witness. -/
def sfW4 : SFRecord := ⟨"9000000002", ⟨2024, 1, 4⟩, "Open", "d"⟩

/-- One row of the tables merged by `merge_with_existing_data`
(`modules/bigquery_manager.py`, lines 173-281): `Mobile` coerced to
string, `Month`/`Year` coerced to int, the parsed `Date`, `Status`, and
all remaining columns abstracted into an opaque payload. -/
structure MergeRecord where
  Mobile : String
  Month : Int
  Year : Int
  Date : Date
  Status : String
  payload : String
  deriving DecidableEq, Repr

/-- The `_key` column: `Mobile + '_' + str(Month) + '_' + str(Year)`. -/
def keyOf (r : MergeRecord) : String :=
  r.Mobile ++ "_" ++ toString r.Month ++ "_" ++ toString r.Year

/-- The distinct keys of a table (`set(df['_key'].unique())`). -/
def keysOf (l : List MergeRecord) : List String := (l.map keyOf).dedup

/-- The rows of a table carrying key `k`. -/
def rowsWithKey (l : List MergeRecord) (k : String) : List MergeRecord :=
  l.filter fun r => decide (keyOf r = k)

/-- The row a `set_index('_key')[...].to_dict()` lookup yields for key
`k`: when several rows share a key the last one wins. -/
def lastRowWithKey (l : List MergeRecord) (k : String) : Option MergeRecord :=
  (rowsWithKey l k).getLast?

/-- `pd.Timestamp.min`, the default of the `.get(key, pd.Timestamp.min)`
date lookups.  It is never reached for overlapping keys, which are
present in both dicts. -/
def tsMin : Date := ⟨0, 0, 0⟩

/-- The `new_dates.get(k, pd.Timestamp.min)` style date lookup. -/
def dictDate (l : List MergeRecord) (k : String) : Date :=
  ((lastRowWithKey l k).map MergeRecord.Date).getD tsMin

/-- The `new_status.get(k)` style status lookup (`None` when absent). -/
def dictStatus (l : List MergeRecord) (k : String) : Option String :=
  (lastRowWithKey l k).map MergeRecord.Status

/-- `only_new_keys = new_keys - existing_keys`. -/
def only_new_keys (new_df existing_df : List MergeRecord) : List String :=
  (keysOf new_df).filter fun k => decide (¬ k ∈ keysOf existing_df)

/-- `only_existing_keys = existing_keys - new_keys`. -/
def only_existing_keys (new_df existing_df : List MergeRecord) : List String :=
  (keysOf existing_df).filter fun k => decide (¬ k ∈ keysOf new_df)

/-- `overlapping_keys = existing_keys.intersection(new_keys)`. -/
def overlapping_keys (new_df existing_df : List MergeRecord) : List String :=
  (keysOf existing_df).filter fun k => decide (k ∈ keysOf new_df)

/-- `new_only_df = new_df[new_df['_key'].isin(only_new_keys)]`. -/
def new_only_df (new_df existing_df : List MergeRecord) : List MergeRecord :=
  new_df.filter fun r => decide (keyOf r ∈ only_new_keys new_df existing_df)

/-- `existing_only_df = existing_df[existing_df['_key'].isin(only_existing_keys)]`. -/
def existing_only_df (new_df existing_df : List MergeRecord) : List MergeRecord :=
  existing_df.filter fun r => decide (keyOf r ∈ only_existing_keys new_df existing_df)

/-- `new_overlap = new_df[new_df['_key'].isin(overlapping_keys)]`. -/
def new_overlap (new_df existing_df : List MergeRecord) : List MergeRecord :=
  new_df.filter fun r => decide (keyOf r ∈ overlapping_keys new_df existing_df)

/-- `existing_overlap = existing_df[existing_df['_key'].isin(overlapping_keys)]`. -/
def existing_overlap (new_df existing_df : List MergeRecord) : List MergeRecord :=
  existing_df.filter fun r => decide (keyOf r ∈ overlapping_keys new_df existing_df)

/-- The keys whose new date is `>=` the existing date (the `keys_use_new`
loop). -/
def keys_use_new (new_df existing_df : List MergeRecord) : List String :=
  (overlapping_keys new_df existing_df).filter fun k =>
    dateLe (dictDate (existing_overlap new_df existing_df) k)
      (dictDate (new_overlap new_df existing_df) k)

/-- The keys whose existing date is `>` the new date (the
`keys_use_existing` loop). -/
def keys_use_existing (new_df existing_df : List MergeRecord) : List String :=
  (overlapping_keys new_df existing_df).filter fun k =>
    ! dateLe (dictDate (existing_overlap new_df existing_df) k)
      (dictDate (new_overlap new_df existing_df) k)

/-- `records_from_new = new_overlap[new_overlap['_key'].isin(keys_use_new)]`. -/
def records_from_new (new_df existing_df : List MergeRecord) : List MergeRecord :=
  (new_overlap new_df existing_df).filter fun r =>
    decide (keyOf r ∈ keys_use_new new_df existing_df)

/-- `records_from_existing =
existing_overlap[existing_overlap['_key'].isin(keys_use_existing)]`. -/
def records_from_existing (new_df existing_df : List MergeRecord) : List MergeRecord :=
  (existing_overlap new_df existing_df).filter fun r =>
    decide (keyOf r ∈ keys_use_existing new_df existing_df)

/-- The `status_updates_count` accumulation over `keys_use_new`: one per
key whose new status differs from its existing status. -/
def status_updates_count (new_df existing_df : List MergeRecord) : Nat :=
  ((keys_use_new new_df existing_df).filter fun k =>
    decide (dictStatus (new_overlap new_df existing_df) k ≠
      dictStatus (existing_overlap new_df existing_df) k)).length

/-- `merge_with_existing_data` (`modules/bigquery_manager.py`, lines
173-281), returning `(merged_df, new_records_count,
status_updates_count)`.  The result parts are concatenated in the
source's order; `pd.concat` skipping empty parts equals appending the
possibly-empty filtered lists, and dropping `_key` is the identity here
since the key is recomputed from the fields. -/
def merge_with_existing_data (new_df existing_df : List MergeRecord) :
    List MergeRecord × Nat × Nat :=
  if existing_df = [] then (new_df, new_df.length, 0)
  else
    (new_only_df new_df existing_df ++ existing_only_df new_df existing_df ++
        records_from_new new_df existing_df ++ records_from_existing new_df existing_df,
      (only_new_keys new_df existing_df).length,
      status_updates_count new_df existing_df)

/-- Concrete row for the C2 witness. -/
def mw0 : MergeRecord := ⟨"9111111111", 1, 2024, ⟨2024, 1, 2⟩, "Open", "w"⟩

/-- Concrete new-table row for the C4 witness. -/
def mwN : MergeRecord := ⟨"9222222222", 2, 2024, ⟨2024, 2, 1⟩, "Open", "n"⟩

/-- Concrete existing-table row with a different key for the C4 witness. -/
def mwE : MergeRecord := ⟨"9333333333", 3, 2024, ⟨2024, 3, 1⟩, "Closed", "e"⟩

/-- Existing-table row for the C1 example: date 2024-01-01, status Open. -/
def c1exist : MergeRecord := ⟨"9444444444", 1, 2024, ⟨2024, 1, 1⟩, "Open", "hist"⟩

/-- New-table row for the C1 example: same key, date 2024-01-05, status
Converted. -/
def c1new : MergeRecord := ⟨"9444444444", 1, 2024, ⟨2024, 1, 5⟩, "Converted", "fresh"⟩

/-- What the merge prologue can observe of a pandas DataFrame for the
schema question: its column names and whether it has any rows. -/
structure Frame where
  cols : List String
  nonempty : Bool
  deriving DecidableEq, Repr

/-- The possible outcomes of `merge_with_existing_data`'s column
accesses. -/
inductive MergeOutcome
  | keyError (col : String)
  | proceeds
  deriving DecidableEq, Repr

/-- The composite-key columns in their first-access order
(`bigquery_manager.py`, lines 196-200). -/
def mergeRequiredCols : List String := ["Mobile", "Month", "Year", "Date"]

/-- The first required column missing from a frame, if any. -/
def firstMissingCol (f : Frame) : Option String :=
  mergeRequiredCols.find? fun c => ! f.cols.contains c

/-- Column-level model of `merge_with_existing_data`
(`bigquery_manager.py`, lines 189-204): with an empty existing table it
returns `new_df` untouched without reading any column; otherwise it
accesses Mobile, Month, Year, Date of `new_df` then of `existing_df`,
and a missing column surfaces as a pandas `KeyError` naming it.  The
code performs no schema validation and defines no `MergeSchemaError`. -/
def mergeColumnCheck (new_f exist_f : Frame) : MergeOutcome :=
  if exist_f.nonempty = false then .proceeds
  else
    match firstMissingCol new_f with
    | some c => .keyError c
    | none =>
      match firstMissingCol exist_f with
      | some c => .keyError c
      | none => .proceeds

theorem ordering_then_swap (x y : Ordering) : (x.then y).swap = x.swap.then y.swap := by
  cases x <;> rfl

theorem ordering_then_ne_gt {x y : Ordering} :
    x.then y ≠ .gt ↔ x = .lt ∨ (x = .eq ∧ y ≠ .gt) := by
  cases x <;> simp [Ordering.then]

theorem CmpLaw.refl {α : Type} {cmp : α → α → Ordering} (h : CmpLaw cmp) (a : α) :
    cmp a a = .eq := by
  have hs := h.symm a a
  cases hc : cmp a a with
  | eq => rfl
  | lt => rw [hc] at hs; exact absurd hs (by decide)
  | gt => rw [hc] at hs; exact absurd hs (by decide)

theorem CmpLaw.gt_iff {α : Type} {cmp : α → α → Ordering} (h : CmpLaw cmp) {a b : α} :
    cmp a b = .gt ↔ cmp b a = .lt := by
  rw [h.symm a b]
  cases cmp b a <;> simp [Ordering.swap]

theorem CmpLaw.eq_symm {α : Type} {cmp : α → α → Ordering} (h : CmpLaw cmp) {a b : α}
    (hab : cmp a b = .eq) : cmp b a = .eq := by
  have hs := h.symm b a
  rw [hab] at hs
  simpa [Ordering.swap] using hs

theorem CmpLaw.lt_of_lt_of_le {α : Type} {cmp : α → α → Ordering} (h : CmpLaw cmp)
    {a b c : α} (hab : cmp a b = .lt) (hbc : cmp b c ≠ .gt) : cmp a c = .lt := by
  have h1 : cmp a c ≠ .gt := h.le_trans a b c (by simp [hab]) hbc
  cases hac : cmp a c with
  | lt => rfl
  | gt => exact absurd hac h1
  | eq =>
    have hca : cmp c a = .eq := h.eq_symm hac
    have hba : cmp b a ≠ .gt := h.le_trans b c a hbc (by simp [hca])
    have : cmp b a = .gt := by rw [h.symm b a, hab]; rfl
    exact absurd this hba

theorem CmpLaw.lt_of_le_of_lt {α : Type} {cmp : α → α → Ordering} (h : CmpLaw cmp)
    {a b c : α} (hab : cmp a b ≠ .gt) (hbc : cmp b c = .lt) : cmp a c = .lt := by
  have h1 : cmp a c ≠ .gt := h.le_trans a b c hab (by simp [hbc])
  cases hac : cmp a c with
  | lt => rfl
  | gt => exact absurd hac h1
  | eq =>
    have hca : cmp c a = .eq := h.eq_symm hac
    have hcb : cmp c b ≠ .gt := h.le_trans c a b (by simp [hca]) hab
    have : cmp c b = .gt := (h.gt_iff).mpr hbc
    exact absurd this hcb

theorem CmpLaw.eq_trans {α : Type} {cmp : α → α → Ordering} (h : CmpLaw cmp)
    {a b c : α} (hab : cmp a b = .eq) (hbc : cmp b c = .eq) : cmp a c = .eq := by
  have h1 : cmp a c ≠ .gt := h.le_trans a b c (by simp [hab]) (by simp [hbc])
  have h2 : cmp c a ≠ .gt :=
    h.le_trans c b a (by simp [h.eq_symm hbc]) (by simp [h.eq_symm hab])
  cases hac : cmp a c with
  | eq => rfl
  | gt => exact absurd hac h1
  | lt =>
    have : cmp c a = .gt := (h.gt_iff).mpr hac
    exact absurd this h2

theorem CmpLaw.then_law {α : Type} {c1 c2 : α → α → Ordering}
    (h1 : CmpLaw c1) (h2 : CmpLaw c2) :
    CmpLaw (fun a b => (c1 a b).then (c2 a b)) where
  symm a b := by
    rw [h1.symm a b, h2.symm a b, ordering_then_swap]
  le_trans a b c hab hbc := by
    rw [ordering_then_ne_gt] at hab hbc ⊢
    rcases hab with hab | ⟨hab, hab2⟩
    · rcases hbc with hbc | ⟨hbc, _⟩
      · exact Or.inl (h1.lt_of_lt_of_le hab (by simp [hbc]))
      · exact Or.inl (h1.lt_of_lt_of_le hab (by simp [hbc]))
    · rcases hbc with hbc | ⟨hbc, hbc2⟩
      · exact Or.inl (h1.lt_of_le_of_lt (by simp [hab]) hbc)
      · exact Or.inr ⟨h1.eq_trans hab hbc, h2.le_trans a b c hab2 hbc2⟩

theorem CmpLaw.comap {α β : Type} {cmp : β → β → Ordering} (h : CmpLaw cmp)
    (f : α → β) : CmpLaw (fun a b => cmp (f a) (f b)) where
  symm a b := h.symm (f a) (f b)
  le_trans a b c hab hbc := h.le_trans (f a) (f b) (f c) hab hbc

theorem cmpLin_lt_iff {α : Type} [LinearOrder α] {a b : α} :
    cmpLin a b = .lt ↔ a < b := by
  unfold cmpLin
  rcases lt_trichotomy a b with h | h | h
  · simp [h]
  · subst h; simp [lt_irrefl]
  · simp [h, h.asymm, not_lt.mpr h.le]

theorem cmpLin_gt_iff {α : Type} [LinearOrder α] {a b : α} :
    cmpLin a b = .gt ↔ b < a := by
  unfold cmpLin
  rcases lt_trichotomy a b with h | h | h
  · simp [h, h.asymm]
  · subst h; simp [lt_irrefl]
  · simp [h, not_lt.mpr h.le]

theorem cmpLin_eq_iff {α : Type} [LinearOrder α] {a b : α} :
    cmpLin a b = .eq ↔ a = b := by
  unfold cmpLin
  rcases lt_trichotomy a b with h | h | h
  · simp [h, h.ne]
  · subst h; simp [lt_irrefl]
  · simp [h, not_lt.mpr h.le, h.ne']

theorem cmpLin_le_iff {α : Type} [LinearOrder α] {a b : α} :
    cmpLin a b ≠ .gt ↔ a ≤ b := by
  rw [Ne, cmpLin_gt_iff, not_lt]

theorem cmpLin_law {α : Type} [LinearOrder α] : CmpLaw (cmpLin (α := α)) where
  symm a b := by
    rcases lt_trichotomy a b with h | h | h
    · rw [cmpLin_lt_iff.mpr h, cmpLin_gt_iff.mpr h]; rfl
    · subst h; rw [cmpLin_eq_iff.mpr rfl]; decide
    · rw [cmpLin_gt_iff.mpr h, cmpLin_lt_iff.mpr h]; rfl
  le_trans a b c hab hbc :=
    cmpLin_le_iff.mpr ((cmpLin_le_iff.mp hab).trans (cmpLin_le_iff.mp hbc))

theorem cmpLe_iff {α : Type} {cmp : α → α → Ordering} {a b : α} :
    cmpLe cmp a b = true ↔ cmp a b ≠ .gt := by
  simp [cmpLe]

theorem cmpLe_trans {α : Type} {cmp : α → α → Ordering} (h : CmpLaw cmp) :
    ∀ a b c : α, cmpLe cmp a b → cmpLe cmp b c → cmpLe cmp a c := by
  intro a b c hab hbc
  rw [cmpLe_iff] at hab hbc ⊢
  exact h.le_trans a b c hab hbc

theorem cmpLe_total {α : Type} {cmp : α → α → Ordering} (h : CmpLaw cmp) :
    ∀ a b : α, cmpLe cmp a b || cmpLe cmp b a := by
  intro a b
  rcases hab : cmp a b with _ | _ | _ <;>
    simp [cmpLe, hab, h.symm b a, Ordering.swap]

theorem cmpLe_refl {α : Type} {cmp : α → α → Ordering} (h : CmpLaw cmp) (a : α) :
    cmpLe cmp a a = true := by
  simp [cmpLe, h.refl a]

theorem cmpDate_law : CmpLaw cmpDate :=
  (cmpLin_law.comap Date.year).then_law
    ((cmpLin_law.comap Date.month).then_law (cmpLin_law.comap Date.day))

theorem dateLe_iff {a b : Date} :
    dateLe a b = true ↔
      a.year < b.year ∨ (a.year = b.year ∧
        (a.month < b.month ∨ (a.month = b.month ∧ a.day ≤ b.day))) := by
  rw [dateLe, cmpLe_iff, cmpDate, ordering_then_ne_gt, ordering_then_ne_gt]
  rw [cmpLin_lt_iff, cmpLin_eq_iff, cmpLin_lt_iff, cmpLin_eq_iff, Ne, cmpLin_gt_iff, not_lt]

theorem dateLe_refl (a : Date) : dateLe a a = true := cmpLe_refl cmpDate_law a

theorem dateLe_mk_left {y m d : Nat} {b : Date} :
    dateLe ⟨y, m, d⟩ b = true ↔
      y < b.year ∨ (y = b.year ∧ (m < b.month ∨ (m = b.month ∧ d ≤ b.day))) :=
  dateLe_iff

theorem dateLe_mk_right {a : Date} {y m d : Nat} :
    dateLe a ⟨y, m, d⟩ = true ↔
      a.year < y ∨ (a.year = y ∧ (a.month < m ∨ (a.month = m ∧ a.day ≤ d))) :=
  dateLe_iff

/-- C7: `get_final_source` is a total deterministic function of the two
normalized campaign strings and agrees with the spec's
`compute_final_source` everywhere: it returns `first_touch` whenever
`first_touch ≠ "NA"`, otherwise `"FT_Organic"` when the session campaign
contains `"Brand"`, else the session campaign when it is not `"NA"`, else
`"NA"`; with the four quoted input/output examples. -/
theorem final_source_c7 :
    (∀ ft sc, get_final_source ft sc = spec_compute_final_source ft sc) ∧
    get_final_source "NA" "Summer Brand Promo" = "FT_Organic" ∧
    get_final_source "NA" "Generic Sale" = "Generic Sale" ∧
    get_final_source "Winter22" "Anything" = "Winter22" ∧
    get_final_source "NA" "NA" = "NA" := by
  refine ⟨?_, by decide, by decide, by decide, by decide⟩
  intro ft sc
  by_cases h : ft = "NA"
  · subst h; rfl
  · simp [get_final_source, spec_compute_final_source, h]

/-- C8: for every valid pair of dates, `get_bimonth_date_range` returns
`(expanded_start, expanded_end)` with `expanded_start ≤ start_date`,
`end_date ≤ expanded_end`, `expanded_start` the first day of the first
month of the start date's bi-month period and `expanded_end` the last day
of the last month of the end date's bi-month period (both in the same
bi-month period as the respective input, so the expanded range is a union
of whole bi-month periods); in particular 2024-03-15 .. 2024-03-20
expands to 2024-03-01 .. 2024-04-30. -/
theorem bimonth_expansion_c8 (s e : Date) (hs : validDate s) (he : validDate e) :
    dateLe (get_bimonth_date_range s e).1 s = true ∧
    dateLe e (get_bimonth_date_range s e).2 = true ∧
    (get_bimonth_date_range s e).1 =
      ⟨s.year, (get_bimonth_period s.month - 1) * 2 + 1, 1⟩ ∧
    (get_bimonth_date_range s e).2 =
      ⟨e.year, get_bimonth_period e.month * 2,
        monthrange_days e.year (get_bimonth_period e.month * 2)⟩ ∧
    get_bimonth_period (get_bimonth_date_range s e).1.month = get_bimonth_period s.month ∧
    (get_bimonth_date_range s e).1.day = 1 ∧
    get_bimonth_period (get_bimonth_date_range s e).2.month = get_bimonth_period e.month ∧
    (get_bimonth_date_range s e).2.day =
      monthrange_days e.year (get_bimonth_date_range s e).2.month ∧
    get_bimonth_date_range ⟨2024, 3, 15⟩ ⟨2024, 3, 20⟩ = (⟨2024, 3, 1⟩, ⟨2024, 4, 30⟩) := by
  obtain ⟨hm1, hm2, hd1, hd2⟩ := hs
  obtain ⟨hm1e, hm2e, hd1e, hd2e⟩ := he
  refine ⟨?_, ?_, rfl, rfl, ?_, rfl, ?_, rfl, by decide⟩
  · show dateLe ⟨s.year, (get_bimonth_period s.month - 1) * 2 + 1, 1⟩ s = true
    rw [dateLe_mk_left]
    unfold get_bimonth_period
    omega
  · show dateLe e ⟨e.year, get_bimonth_period e.month * 2,
      monthrange_days e.year (get_bimonth_period e.month * 2)⟩ = true
    rw [dateLe_mk_right]
    have hem : e.month = get_bimonth_period e.month * 2 ∨
        e.month < get_bimonth_period e.month * 2 := by
      unfold get_bimonth_period; omega
    rcases hem with hem | hem
    · refine Or.inr ⟨rfl, Or.inr ⟨hem, ?_⟩⟩
      rw [← hem]
      exact hd2e
    · exact Or.inr ⟨rfl, Or.inl hem⟩
  · show get_bimonth_period ((get_bimonth_period s.month - 1) * 2 + 1) =
      get_bimonth_period s.month
    unfold get_bimonth_period
    omega
  · show get_bimonth_period (get_bimonth_period e.month * 2) = get_bimonth_period e.month
    unfold get_bimonth_period
    omega

/-- Instantiation of `bimonth_expansion_c8` at the spec's example dates. -/
theorem bimonth_expansion_c8_witness :
    get_bimonth_date_range ⟨2024, 3, 15⟩ ⟨2024, 3, 20⟩ = (⟨2024, 3, 1⟩, ⟨2024, 4, 30⟩) :=
  (bimonth_expansion_c8 ⟨2024, 3, 15⟩ ⟨2024, 3, 20⟩
    (by unfold validDate monthrange_days; decide)
    (by unfold validDate monthrange_days; decide)).2.2.2.2.2.2.2.2

theorem CmpLaw.le_total {α : Type} {cmp : α → α → Ordering} (h : CmpLaw cmp) (a b : α) :
    cmp a b ≠ .gt ∨ cmp b a ≠ .gt := by
  rcases hab : cmp a b with _ | _ | _
  · exact Or.inl (by simp [hab])
  · exact Or.inl (by simp [hab])
  · exact Or.inr (by simp [h.gt_iff.mp hab])

theorem CmpLaw.flip {α : Type} {cmp : α → α → Ordering} (h : CmpLaw cmp) :
    CmpLaw (fun a b => cmp b a) where
  symm a b := h.symm b a
  le_trans a b c hab hbc := h.le_trans c b a hbc hab

theorem cmpCharList_symm : ∀ a b, cmpCharList a b = (cmpCharList b a).swap
  | [], [] => rfl
  | [], _ :: _ => rfl
  | _ :: _, [] => rfl
  | a :: as, b :: bs => by
    show (cmpLin a.toNat b.toNat).then (cmpCharList as bs) =
      ((cmpLin b.toNat a.toNat).then (cmpCharList bs as)).swap
    rw [ordering_then_swap, ← cmpLin_law.symm, ← cmpCharList_symm as bs]

theorem cmpCharList_le_trans :
    ∀ a b c, cmpCharList a b ≠ .gt → cmpCharList b c ≠ .gt → cmpCharList a c ≠ .gt
  | [], _, c, _, _ => by cases c <;> simp [cmpCharList]
  | _ :: _, [], _, hab, _ => (hab rfl).elim
  | _ :: _, _ :: _, [], _, hbc => (hbc rfl).elim
  | a :: as, b :: bs, c :: cs, hab, hbc => by
    simp only [cmpCharList] at hab hbc ⊢
    rw [ordering_then_ne_gt] at hab hbc ⊢
    rcases hab with hab | ⟨hab, hab2⟩
    · rcases hbc with hbc | ⟨hbc, _⟩
      · exact Or.inl (cmpLin_law.lt_of_lt_of_le hab (by simp [hbc]))
      · exact Or.inl (cmpLin_law.lt_of_lt_of_le hab (by simp [hbc]))
    · rcases hbc with hbc | ⟨hbc, hbc2⟩
      · exact Or.inl (cmpLin_law.lt_of_le_of_lt (by simp [hab]) hbc)
      · exact Or.inr ⟨cmpLin_law.eq_trans hab hbc, cmpCharList_le_trans as bs cs hab2 hbc2⟩

theorem cmpCharList_law : CmpLaw cmpCharList :=
  ⟨cmpCharList_symm, cmpCharList_le_trans⟩

theorem cmpString_law : CmpLaw cmpString := cmpCharList_law.comap String.data

theorem cmpSF_law : CmpLaw cmpSF :=
  (cmpString_law.comap SFRecord.Mobile).then_law
    ((cmpLin_law.comap sfYear).then_law
      ((cmpLin_law.comap sfPeriod).then_law
        (((cmpLin_law.comap fun r : SFRecord => statusPriority r.Status).flip).then_law
          ((cmpDate_law.comap SFRecord.CreatedDate).flip))))

theorem cmpGA_law : CmpLaw cmpGA :=
  (cmpString_law.comap GARecord.Mobile).then_law
    ((cmpLin_law.comap gaYear).then_law
      ((cmpLin_law.comap gaPeriod).then_law (cmpDate_law.comap GARecord.Date)))

theorem gaDateLe_law : CmpLaw fun a b : GARecord => cmpDate a.Date b.Date :=
  cmpDate_law.comap GARecord.Date

theorem dropDupsBy_sublist {α κ : Type} [DecidableEq κ] (key : α → κ) :
    ∀ (seen : List κ) (l : List α), dropDupsBy key seen l <+ l
  | _, [] => List.Sublist.refl []
  | seen, a :: as => by
    rw [dropDupsBy]
    by_cases h : key a ∈ seen
    · rw [if_pos h]
      exact List.Sublist.cons a (dropDupsBy_sublist key seen as)
    · rw [if_neg h]
      exact List.Sublist.cons₂ a (dropDupsBy_sublist key (key a :: seen) as)

theorem dropDupsBy_filter {α κ : Type} [DecidableEq κ] (key : α → κ) (k : κ) :
    ∀ (seen : List κ) (l : List α),
      (dropDupsBy key seen l).filter (fun a => decide (key a = k)) =
        if k ∈ seen then [] else (l.filter (fun a => decide (key a = k))).take 1
  | seen, [] => by simp [dropDupsBy]
  | seen, a :: as => by
    rw [dropDupsBy]
    by_cases ha : key a ∈ seen
    · rw [if_pos ha, dropDupsBy_filter key k seen as]
      by_cases hk : k ∈ seen
      · simp [hk]
      · have hak : ¬(key a = k) := fun h => hk (h ▸ ha)
        simp [hk, List.filter_cons, hak]
    · rw [if_neg ha]
      by_cases hak : key a = k
      · subst hak
        rw [List.filter_cons_of_pos (by simp),
          dropDupsBy_filter key (key a) (key a :: seen) as,
          if_pos (List.mem_cons_self (key a) seen), if_neg ha,
          List.filter_cons_of_pos (by simp)]
        rfl
      · rw [List.filter_cons_of_neg (by simp [hak]),
          dropDupsBy_filter key k (key a :: seen) as]
        by_cases hk : k ∈ seen
        · rw [if_pos (List.mem_cons_of_mem _ hk), if_pos hk]
        · have hne2 : ¬ k ∈ key a :: seen := by
            rw [List.mem_cons]
            rintro (h | h)
            · exact hak h.symm
            · exact hk h
          rw [if_neg hne2, if_neg hk, List.filter_cons_of_neg (by simp [hak])]

/-- The row kept per group by "stable sort, then keep first per key": it
belongs to the group and precedes every group member in the sort order. -/
theorem sort_dedup_kept {α κ : Type} [DecidableEq κ] (r : α → α → Prop) [DecidableRel r]
    [IsTotal α r] [IsTrans α r] (key : α → κ) (l : List α) (k : κ)
    (hne : l.filter (fun a => decide (key a = k)) ≠ []) :
    ∃ g, (dropDupsBy key [] (List.insertionSort r l)).filter (fun a => decide (key a = k)) = [g]
      ∧ g ∈ l ∧ key g = k ∧ ∀ x ∈ l, key x = k → r g x := by
  set p : α → Bool := fun a => decide (key a = k) with hp
  have hperm : (List.insertionSort r l).filter p ~ l.filter p :=
    (List.perm_insertionSort r l).filter p
  have hsorted : ((List.insertionSort r l).filter p).Pairwise r :=
    List.Pairwise.sublist (List.filter_sublist _) (List.sorted_insertionSort r l)
  have hmf : (List.insertionSort r l).filter p ≠ [] := by
    intro h0
    rw [h0] at hperm
    exact hne hperm.symm.eq_nil
  obtain ⟨g, t, hgt⟩ := List.exists_cons_of_ne_nil hmf
  have hg : g ∈ (List.insertionSort r l).filter p := by
    rw [hgt]
    exact List.mem_cons_self g t
  have hg2 := List.mem_filter.mp hg
  refine ⟨g, ?_, ?_, ?_, ?_⟩
  · rw [dropDupsBy_filter key k [] (List.insertionSort r l), if_neg (List.not_mem_nil k), hgt]
    rfl
  · exact (List.mem_insertionSort r).mp hg2.1
  · exact of_decide_eq_true hg2.2
  · intro x hx hkx
    have hxf : x ∈ (List.insertionSort r l).filter p := by
      rw [hperm.mem_iff]
      exact List.mem_filter.mpr ⟨hx, by simp [hp, hkx]⟩
    rw [hgt] at hxf
    rcases List.mem_cons.mp hxf with hxg | hxt
    · subst hxg
      exact (total_of r x x).elim id id
    · rw [hgt] at hsorted
      exact (List.pairwise_cons.mp hsorted).1 x hxt

theorem eq_then (y : Ordering) : Ordering.eq.then y = y := rfl

/-- Within one dedup group the CRM sort order means: higher priority
first, and more recent first on priority ties. -/
theorem sfLe_same_key {g x : SFRecord} (hk : sfKey g = sfKey x) (h : sfLe g x) :
    statusPriority x.Status ≤ statusPriority g.Status ∧
      (statusPriority x.Status = statusPriority g.Status →
        dateLe x.CreatedDate g.CreatedDate = true) := by
  have hk2 : g.Mobile = x.Mobile ∧ sfYear g = sfYear x ∧ sfPeriod g = sfPeriod x := by
    simpa [sfKey, Prod.ext_iff] using hk
  obtain ⟨hm, hy, hp⟩ := hk2
  unfold sfLe cmpSF at h
  rw [hm, hy, hp, cmpString_law.refl, eq_then, cmpLin_law.refl, eq_then,
    cmpLin_law.refl, eq_then, ordering_then_ne_gt] at h
  rcases h with h | ⟨h, h2⟩
  · have hlt := cmpLin_lt_iff.mp h
    exact ⟨le_of_lt hlt, fun he => absurd he (ne_of_lt hlt)⟩
  · exact ⟨le_of_eq (cmpLin_eq_iff.mp h), fun _ => cmpLe_iff.mpr h2⟩

/-- Within one dedup group the GA sort order is chronological. -/
theorem gaLe_same_key {g x : GARecord} (hk : gaKey g = gaKey x) (h : gaLe g x) :
    dateLe g.Date x.Date = true := by
  have hk2 : g.Mobile = x.Mobile ∧ gaYear g = gaYear x ∧ gaPeriod g = gaPeriod x := by
    simpa [gaKey, Prod.ext_iff] using hk
  obtain ⟨hm, hy, hp⟩ := hk2
  unfold gaLe cmpGA at h
  rw [hm, hy, hp, cmpString_law.refl, eq_then, cmpLin_law.refl, eq_then,
    cmpLin_law.refl, eq_then] at h
  exact cmpLe_iff.mpr h

/-- C5: in every CRM dedup group (same Mobile, same year and bi-month
period of the created date) with at least two rows, exactly one row
survives `dedupe_salesforce_by_priority`; it is a row of the group with
the maximum status priority (Open=1 < Prospect=2 < Quoted=3 < Closed=4 <
Converted=5), and among rows tying that priority it has the maximum
created date. -/
theorem crm_dedupe_c5 (l : List SFRecord) (m : String) (y p : Nat)
    (hge2 : 2 ≤ (l.filter fun r => decide (sfKey r = (m, y, p))).length) :
    ∃ g, (dedupe_salesforce_by_priority l).filter (fun r => decide (sfKey r = (m, y, p))) = [g] ∧
      g ∈ l ∧ sfKey g = (m, y, p) ∧
      (∀ x ∈ l, sfKey x = (m, y, p) → statusPriority x.Status ≤ statusPriority g.Status) ∧
      (∀ x ∈ l, sfKey x = (m, y, p) →
        statusPriority x.Status = statusPriority g.Status →
          dateLe x.CreatedDate g.CreatedDate = true) := by
  have hne : (l.filter fun r => decide (sfKey r = (m, y, p))) ≠ [] := by
    intro h0
    rw [h0] at hge2
    simp at hge2
  have hl : l ≠ [] := by
    intro h0
    exact hne (by rw [h0]; rfl)
  haveI : IsTotal SFRecord sfLe := ⟨fun a b => cmpSF_law.le_total a b⟩
  haveI : IsTrans SFRecord sfLe := ⟨fun a b c => cmpSF_law.le_trans a b c⟩
  obtain ⟨g, hfil, hmem, hkey, hmax⟩ := sort_dedup_kept sfLe sfKey l (m, y, p) hne
  refine ⟨g, ?_, hmem, hkey, ?_, ?_⟩
  · unfold dedupe_salesforce_by_priority
    rw [if_neg hl]
    exact hfil
  · intro x hx hkx
    exact (sfLe_same_key (by rw [hkey, hkx]) (hmax x hx hkx)).1
  · intro x hx hkx
    exact (sfLe_same_key (by rw [hkey, hkx]) (hmax x hx hkx)).2

/-- Instantiation of `crm_dedupe_c5` on a two-row group. -/
theorem crm_dedupe_c5_witness :
    ∃ g, (dedupe_salesforce_by_priority [sfW1, sfW2]).filter
        (fun r => decide (sfKey r = ("9000000001", 2024, 1))) = [g] ∧
      g ∈ [sfW1, sfW2] ∧ sfKey g = ("9000000001", 2024, 1) ∧
      (∀ x ∈ [sfW1, sfW2], sfKey x = ("9000000001", 2024, 1) →
        statusPriority x.Status ≤ statusPriority g.Status) ∧
      (∀ x ∈ [sfW1, sfW2], sfKey x = ("9000000001", 2024, 1) →
        statusPriority x.Status = statusPriority g.Status →
          dateLe x.CreatedDate g.CreatedDate = true) :=
  crm_dedupe_c5 [sfW1, sfW2] "9000000001" 2024 1 (by decide)

/-- C6: in every GA dedup group (same Mobile, same year and bi-month
period of the date) with at least two rows, exactly one row survives
`remove_duplicates_bimonth_ga` and it has the minimum date of the group;
and the empty input gives the empty output. -/
theorem ga_dedupe_c6 (l : List GARecord) (m : String) (y p : Nat)
    (hge2 : 2 ≤ (l.filter fun r => decide (gaKey r = (m, y, p))).length) :
    (∃ g, (remove_duplicates_bimonth_ga l).filter (fun r => decide (gaKey r = (m, y, p))) = [g] ∧
      g ∈ l ∧ gaKey g = (m, y, p) ∧
      ∀ x ∈ l, gaKey x = (m, y, p) → dateLe g.Date x.Date = true) ∧
    remove_duplicates_bimonth_ga [] = [] := by
  refine ⟨?_, by simp [remove_duplicates_bimonth_ga]⟩
  have hne : (l.filter fun r => decide (gaKey r = (m, y, p))) ≠ [] := by
    intro h0
    rw [h0] at hge2
    simp at hge2
  have hl : l ≠ [] := by
    intro h0
    exact hne (by rw [h0]; rfl)
  haveI : IsTotal GARecord gaLe := ⟨fun a b => cmpGA_law.le_total a b⟩
  haveI : IsTrans GARecord gaLe := ⟨fun a b c => cmpGA_law.le_trans a b c⟩
  obtain ⟨g, hfil, hmem, hkey, hmin⟩ := sort_dedup_kept gaLe gaKey l (m, y, p) hne
  refine ⟨g, ?_, hmem, hkey,
    fun x hx hkx => gaLe_same_key (by rw [hkey, hkx]) (hmin x hx hkx)⟩
  unfold remove_duplicates_bimonth_ga
  rw [if_neg hl]
  have hperm :
      (List.insertionSort gaDateLe
        (dropDupsBy gaKey [] (List.insertionSort gaLe l))).filter
          (fun r => decide (gaKey r = (m, y, p))) ~
      (dropDupsBy gaKey [] (List.insertionSort gaLe l)).filter
        (fun r => decide (gaKey r = (m, y, p))) :=
    (List.perm_insertionSort gaDateLe _).filter _
  rw [hfil] at hperm
  exact List.perm_singleton.mp hperm

/-- Instantiation of `ga_dedupe_c6` on a two-row group. -/
theorem ga_dedupe_c6_witness :
    (∃ g, (remove_duplicates_bimonth_ga [gaW1, gaW2]).filter
        (fun r => decide (gaKey r = ("9000000003", 2024, 2))) = [g] ∧
      g ∈ [gaW1, gaW2] ∧ gaKey g = ("9000000003", 2024, 2) ∧
      ∀ x ∈ [gaW1, gaW2], gaKey x = ("9000000003", 2024, 2) →
        dateLe g.Date x.Date = true) ∧
    remove_duplicates_bimonth_ga [] = [] :=
  ga_dedupe_c6 [gaW1, gaW2] "9000000003" 2024 2 (by decide)

/-- C9 counterexample: `dedupe_salesforce_by_priority` performs no final
chronological re-sort; on these two rows its output is ordered by Mobile
and is not ascending by date, refuting the claim for the CRM variant. -/
theorem output_order_c9_counterexample :
    dedupe_salesforce_by_priority [sfX1, sfX2] = [sfX2, sfX1] ∧
    ¬ List.Pairwise (fun a b : SFRecord => dateLe a.CreatedDate b.CreatedDate = true)
        (dedupe_salesforce_by_priority [sfX1, sfX2]) := by
  have h : dedupe_salesforce_by_priority [sfX1, sfX2] = [sfX2, sfX1] := by decide
  refine ⟨h, ?_⟩
  rw [h]
  intro hp
  have h2 := (List.pairwise_cons.mp hp).1 sfX1 (List.mem_cons_self sfX1 [])
  exact absurd h2 (by decide)

/-- C9 amended: only the analytics variant re-sorts its final result
ascending by date; the CRM variant returns its rows ordered by the
internal sort key (Mobile, year, period, priority desc, date desc), not
chronologically. -/
theorem output_order_c9_amended :
    (∀ l : List GARecord,
      List.Pairwise (fun a b : GARecord => dateLe a.Date b.Date = true)
        (remove_duplicates_bimonth_ga l)) ∧
    (∀ l : List SFRecord, List.Pairwise sfLe (dedupe_salesforce_by_priority l)) := by
  constructor
  · intro l
    unfold remove_duplicates_bimonth_ga
    by_cases hl : l = []
    · rw [if_pos hl, hl]
      exact List.Pairwise.nil
    · rw [if_neg hl]
      haveI : IsTotal GARecord gaDateLe := ⟨fun a b => gaDateLe_law.le_total a b⟩
      haveI : IsTrans GARecord gaDateLe := ⟨fun a b c => gaDateLe_law.le_trans a b c⟩
      exact (List.sorted_insertionSort gaDateLe _).imp fun h => cmpLe_iff.mpr h
  · intro l
    unfold dedupe_salesforce_by_priority
    by_cases hl : l = []
    · rw [if_pos hl, hl]
      exact List.Pairwise.nil
    · rw [if_neg hl]
      haveI : IsTotal SFRecord sfLe := ⟨fun a b => cmpSF_law.le_total a b⟩
      haveI : IsTrans SFRecord sfLe := ⟨fun a b c => cmpSF_law.le_trans a b c⟩
      exact List.Pairwise.sublist (dropDupsBy_sublist sfKey [] _)
        (List.sorted_insertionSort sfLe l)

/-- C10: a status outside the known vocabulary gets priority `0`,
strictly below Open's priority `1` (`fillna(0)`), never an error; hence a
CRM dedup group containing a known-status row is always won by a
known-status row. -/
theorem unknown_status_c10 (l : List SFRecord) (m : String) (y p : Nat) (r0 : SFRecord)
    (hr0 : r0 ∈ l) (hk0 : sfKey r0 = (m, y, p)) (hknown : r0.Status ∈ knownStatuses) :
    (∀ s, s ∉ knownStatuses → statusPriority s = 0) ∧
    statusPriority "Open" = 1 ∧
    (∀ s, s ∈ knownStatuses → 1 ≤ statusPriority s) ∧
    ∃ g, (dedupe_salesforce_by_priority l).filter (fun r => decide (sfKey r = (m, y, p))) = [g] ∧
      g ∈ l ∧ sfKey g = (m, y, p) ∧ g.Status ∈ knownStatuses := by
  have hzero : ∀ s, s ∉ knownStatuses → statusPriority s = 0 := by
    intro s hs
    simp [knownStatuses] at hs
    obtain ⟨h1, h2, h3, h4, h5⟩ := hs
    simp [statusPriority, STATUS_PRIORITY, h1, h2, h3, h4, h5]
  have hpos : ∀ s, s ∈ knownStatuses → 1 ≤ statusPriority s := by
    intro s hs
    simp [knownStatuses] at hs
    rcases hs with h | h | h | h | h <;> subst h <;> decide
  refine ⟨hzero, by decide, hpos, ?_⟩
  have hne : (l.filter fun r => decide (sfKey r = (m, y, p))) ≠ [] := by
    intro h0
    have hin : r0 ∈ l.filter fun r => decide (sfKey r = (m, y, p)) :=
      List.mem_filter.mpr ⟨hr0, by simp [hk0]⟩
    rw [h0] at hin
    exact absurd hin (List.not_mem_nil r0)
  have hl : l ≠ [] := by
    intro h0
    rw [h0] at hr0
    exact absurd hr0 (List.not_mem_nil r0)
  haveI : IsTotal SFRecord sfLe := ⟨fun a b => cmpSF_law.le_total a b⟩
  haveI : IsTrans SFRecord sfLe := ⟨fun a b c => cmpSF_law.le_trans a b c⟩
  obtain ⟨g, hfil, hmem, hkey, hmax⟩ := sort_dedup_kept sfLe sfKey l (m, y, p) hne
  refine ⟨g, ?_, hmem, hkey, ?_⟩
  · unfold dedupe_salesforce_by_priority
    rw [if_neg hl]
    exact hfil
  · by_contra hout
    have h0 := hzero g.Status hout
    have hle := (sfLe_same_key (by rw [hkey, hk0]) (hmax r0 hr0 hk0)).1
    have h1 := hpos r0.Status hknown
    omega

theorem mem_keysOf {l : List MergeRecord} {r : MergeRecord} (hr : r ∈ l) :
    keyOf r ∈ keysOf l := by
  rw [keysOf, List.mem_dedup, List.mem_map]
  exact ⟨r, hr, rfl⟩

theorem mem_keysOf_iff {l : List MergeRecord} {k : String} :
    k ∈ keysOf l ↔ ∃ r ∈ l, keyOf r = k := by
  rw [keysOf, List.mem_dedup, List.mem_map]

/-- Commuting two filters. -/
theorem filter_swap {α : Type} (l : List α) (p q : α → Bool) :
    (l.filter q).filter p = (l.filter p).filter q := by
  rw [List.filter_filter, List.filter_filter]
  exact List.filter_congr fun a _ => Bool.and_comm (p a) (q a)

/-- Restricting a table to keys in `S` either keeps a key's rows intact
(`k ∈ S`) or removes them all. -/
theorem rowsWithKey_filter_mem (l : List MergeRecord) (S : List String) (k : String) :
    rowsWithKey (l.filter fun r => decide (keyOf r ∈ S)) k =
      if k ∈ S then rowsWithKey l k else [] := by
  rw [rowsWithKey, filter_swap]
  by_cases hk : k ∈ S
  · rw [if_pos hk]
    apply List.filter_eq_self.mpr
    intro r hr
    have hkr : keyOf r = k := of_decide_eq_true (List.mem_filter.mp hr).2
    simp [hkr, hk]
  · rw [if_neg hk]
    apply List.filter_eq_nil_iff.mpr
    intro r hr
    have hkr : keyOf r = k := of_decide_eq_true (List.mem_filter.mp hr).2
    simp [hkr, hk]

/-- With one row per key, that row is the key's dict entry. -/
theorem rowsWithKey_of_nodup :
    ∀ {l : List MergeRecord}, (l.map keyOf).Nodup → ∀ {r}, r ∈ l →
      rowsWithKey l (keyOf r) = [r] := by
  intro l
  induction l with
  | nil => intro _ r hr; exact absurd hr (List.not_mem_nil r)
  | cons a t ih =>
    intro hnd r hr
    rw [List.map_cons, List.nodup_cons] at hnd
    rcases List.mem_cons.mp hr with hra | hrt
    · subst hra
      rw [rowsWithKey, List.filter_cons_of_pos (by simp)]
      have ht : t.filter (fun x => decide (keyOf x = keyOf r)) = [] := by
        apply List.filter_eq_nil_iff.mpr
        intro x hx
        simp only [decide_eq_true_eq]
        intro hxr
        exact hnd.1 (hxr ▸ List.mem_map_of_mem keyOf hx)
      rw [ht]
    · have hne : keyOf a ≠ keyOf r := by
        intro h
        exact hnd.1 (h ▸ List.mem_map_of_mem keyOf hrt)
      rw [rowsWithKey, List.filter_cons_of_neg (by simp [hne])]
      exact ih hnd.2 hrt

theorem lastRowWithKey_of_nodup {l : List MergeRecord} (hnd : (l.map keyOf).Nodup)
    {r : MergeRecord} (hr : r ∈ l) : lastRowWithKey l (keyOf r) = some r := by
  rw [lastRowWithKey, rowsWithKey_of_nodup hnd hr]
  rfl

theorem rowsWithKey_append (A B : List MergeRecord) (k : String) :
    rowsWithKey (A ++ B) k = rowsWithKey A k ++ rowsWithKey B k := by
  unfold rowsWithKey
  exact List.filter_append A B

/-- C2: merging a non-empty record set with one row per composite key
against itself yields `new_records_count = 0`, `status_updates_count = 0`
and the input itself as output (so in particular the output equals the
input as a multiset keyed by the composite key). -/
theorem merge_idempotent_c2 (l : List MergeRecord) (hne : l ≠ [])
    (_hnd : (l.map keyOf).Nodup) :
    merge_with_existing_data l l = (l, 0, 0) := by
  have hmem : ∀ r ∈ l, keyOf r ∈ keysOf l := fun r hr => mem_keysOf hr
  have h_onk : only_new_keys l l = [] := by
    apply List.filter_eq_nil_iff.mpr
    intro k hk
    simp [hk]
  have h_oek : only_existing_keys l l = [] := by
    apply List.filter_eq_nil_iff.mpr
    intro k hk
    simp [hk]
  have h_ovk : overlapping_keys l l = keysOf l := by
    apply List.filter_eq_self.mpr
    intro k hk
    simp [hk]
  have h_no : new_overlap l l = l := by
    unfold new_overlap
    rw [h_ovk]
    apply List.filter_eq_self.mpr
    intro r hr
    simp [hmem r hr]
  have h_eo : existing_overlap l l = l := by
    unfold existing_overlap
    rw [h_ovk]
    apply List.filter_eq_self.mpr
    intro r hr
    simp [hmem r hr]
  have h_kun : keys_use_new l l = keysOf l := by
    unfold keys_use_new
    rw [h_ovk, h_no, h_eo]
    exact List.filter_eq_self.mpr fun k _ => dateLe_refl _
  have h_kue : keys_use_existing l l = [] := by
    unfold keys_use_existing
    rw [h_ovk, h_no, h_eo]
    apply List.filter_eq_nil_iff.mpr
    intro k _
    simp [dateLe_refl]
  have h_nod : new_only_df l l = [] := by
    unfold new_only_df
    rw [h_onk]
    apply List.filter_eq_nil_iff.mpr
    intro r _
    simp
  have h_eod : existing_only_df l l = [] := by
    unfold existing_only_df
    rw [h_oek]
    apply List.filter_eq_nil_iff.mpr
    intro r _
    simp
  have h_rfn : records_from_new l l = l := by
    unfold records_from_new
    rw [h_no, h_kun]
    apply List.filter_eq_self.mpr
    intro r hr
    simp [hmem r hr]
  have h_rfe : records_from_existing l l = [] := by
    unfold records_from_existing
    rw [h_eo, h_kue]
    apply List.filter_eq_nil_iff.mpr
    intro r _
    simp
  have h_suc : status_updates_count l l = 0 := by
    unfold status_updates_count
    rw [h_kun, h_no, h_eo]
    have h0 : ((keysOf l).filter fun k => decide (dictStatus l k ≠ dictStatus l k)) = [] := by
      apply List.filter_eq_nil_iff.mpr
      intro k _
      simp
    rw [h0]
    rfl
  unfold merge_with_existing_data
  rw [if_neg hne, h_nod, h_eod, h_rfn, h_rfe, h_onk, h_suc]
  simp

/-- Instantiation of `merge_idempotent_c2` on a one-row table. -/
theorem merge_idempotent_c2_witness :
    merge_with_existing_data [mw0] [mw0] = ([mw0], 0, 0) :=
  merge_idempotent_c2 [mw0] (by decide) (by decide)

/-- C4: every composite key present only in the existing table keeps
exactly its existing rows in the merge output, unchanged and in order. -/
theorem merge_preserves_existing_c4 (new_df existing_df : List MergeRecord) (k : String)
    (hnew : ∀ rn ∈ new_df, keyOf rn ≠ k) (hex : ∃ re ∈ existing_df, keyOf re = k) :
    rowsWithKey (merge_with_existing_data new_df existing_df).1 k =
      rowsWithKey existing_df k := by
  obtain ⟨re, hre, hrek⟩ := hex
  have hexne : existing_df ≠ [] := by
    intro h0
    rw [h0] at hre
    exact absurd hre (List.not_mem_nil re)
  have hkn : ¬ k ∈ keysOf new_df := by
    intro hk
    obtain ⟨r, hr, hkr⟩ := mem_keysOf_iff.mp hk
    exact hnew r hr hkr
  have hke : k ∈ keysOf existing_df := mem_keysOf_iff.mpr ⟨re, hre, hrek⟩
  have hnil : ∀ l2 : List MergeRecord, (∀ r ∈ l2, keyOf r ≠ k) → rowsWithKey l2 k = [] := by
    intro l2 h
    apply List.filter_eq_nil_iff.mpr
    intro r hr
    simp [h r hr]
  unfold merge_with_existing_data
  rw [if_neg hexne]
  show rowsWithKey (new_only_df new_df existing_df ++ existing_only_df new_df existing_df ++
    records_from_new new_df existing_df ++ records_from_existing new_df existing_df) k =
    rowsWithKey existing_df k
  rw [rowsWithKey_append, rowsWithKey_append, rowsWithKey_append]
  have h1 : rowsWithKey (new_only_df new_df existing_df) k = [] :=
    hnil _ fun r hr => hnew r (List.mem_filter.mp hr).1
  have h3 : rowsWithKey (records_from_new new_df existing_df) k = [] :=
    hnil _ fun r hr => hnew r (List.mem_filter.mp (List.mem_filter.mp hr).1).1
  have h4 : rowsWithKey (records_from_existing new_df existing_df) k = [] := by
    apply hnil
    intro r hr hkr
    have h5 := of_decide_eq_true (List.mem_filter.mp hr).2
    rw [hkr] at h5
    have h6 : k ∈ overlapping_keys new_df existing_df := (List.mem_filter.mp h5).1
    exact hkn (of_decide_eq_true (List.mem_filter.mp h6).2)
  have h2 : rowsWithKey (existing_only_df new_df existing_df) k =
      rowsWithKey existing_df k := by
    have hko : k ∈ only_existing_keys new_df existing_df :=
      List.mem_filter.mpr ⟨hke, by simp [hkn]⟩
    unfold existing_only_df
    rw [rowsWithKey_filter_mem, if_pos hko]
  rw [h1, h2, h3, h4]
  simp

/-- Instantiation of `merge_preserves_existing_c4` on disjoint keys. -/
theorem merge_preserves_existing_c4_witness :
    rowsWithKey (merge_with_existing_data [mwN] [mwE]).1 (keyOf mwE) =
      rowsWithKey [mwE] (keyOf mwE) :=
  merge_preserves_existing_c4 [mwN] [mwE] (keyOf mwE)
    (by decide) ⟨mwE, by decide, rfl⟩

theorem lastRowWithKey_new_overlap {n e : List MergeRecord} {k : String}
    (hk : k ∈ overlapping_keys n e) :
    lastRowWithKey (new_overlap n e) k = lastRowWithKey n k := by
  unfold lastRowWithKey new_overlap
  rw [rowsWithKey_filter_mem, if_pos hk]

theorem lastRowWithKey_existing_overlap {n e : List MergeRecord} {k : String}
    (hk : k ∈ overlapping_keys n e) :
    lastRowWithKey (existing_overlap n e) k = lastRowWithKey e k := by
  unfold lastRowWithKey existing_overlap
  rw [rowsWithKey_filter_mem, if_pos hk]

theorem dictDate_new_overlap {n e : List MergeRecord} {k : String}
    (hk : k ∈ overlapping_keys n e) :
    dictDate (new_overlap n e) k = dictDate n k := by
  unfold dictDate
  rw [lastRowWithKey_new_overlap hk]

theorem dictDate_existing_overlap {n e : List MergeRecord} {k : String}
    (hk : k ∈ overlapping_keys n e) :
    dictDate (existing_overlap n e) k = dictDate e k := by
  unfold dictDate
  rw [lastRowWithKey_existing_overlap hk]

theorem dictStatus_new_overlap {n e : List MergeRecord} {k : String}
    (hk : k ∈ overlapping_keys n e) :
    dictStatus (new_overlap n e) k = dictStatus n k := by
  unfold dictStatus
  rw [lastRowWithKey_new_overlap hk]

theorem dictStatus_existing_overlap {n e : List MergeRecord} {k : String}
    (hk : k ∈ overlapping_keys n e) :
    dictStatus (existing_overlap n e) k = dictStatus e k := by
  unfold dictStatus
  rw [lastRowWithKey_existing_overlap hk]

/-- C1: for non-empty tables holding one row per composite key, every
key present in both tables keeps the new row when its date is on or
after the existing row's date and the existing row otherwise, and
`status_updates_count` counts the overlapping keys whose kept new row
has a status different from the existing one (the per-key dict lookups
resolve to that key's unique row); in particular an Open 2024-01-01
existing row against a Converted 2024-01-05 new row yields the new row
and one status update. -/
theorem merge_recency_c1 (new_df existing_df : List MergeRecord)
    (hndN : (new_df.map keyOf).Nodup) (hndE : (existing_df.map keyOf).Nodup)
    (_hneN : new_df ≠ []) (hneE : existing_df ≠ []) :
    (∀ rn ∈ new_df, ∀ re ∈ existing_df, keyOf rn = keyOf re →
      rowsWithKey (merge_with_existing_data new_df existing_df).1 (keyOf rn) =
        (if dateLe re.Date rn.Date then [rn] else [re])) ∧
    (merge_with_existing_data new_df existing_df).2.2 =
      ((overlapping_keys new_df existing_df).filter fun k =>
        dateLe (dictDate existing_df k) (dictDate new_df k) &&
          decide (dictStatus new_df k ≠ dictStatus existing_df k)).length ∧
    (∀ rn ∈ new_df, lastRowWithKey new_df (keyOf rn) = some rn) ∧
    (∀ re ∈ existing_df, lastRowWithKey existing_df (keyOf re) = some re) ∧
    merge_with_existing_data [c1new] [c1exist] = ([c1new], 0, 1) := by
  refine ⟨?_, ?_, fun rn hrn => lastRowWithKey_of_nodup hndN hrn,
    fun re hre => lastRowWithKey_of_nodup hndE hre, by decide⟩
  · intro rn hrn re hre hk
    have hkN : keyOf rn ∈ keysOf new_df := mem_keysOf hrn
    have hkE : keyOf rn ∈ keysOf existing_df := by
      rw [hk]
      exact mem_keysOf hre
    have hov : keyOf rn ∈ overlapping_keys new_df existing_df :=
      List.mem_filter.mpr ⟨hkE, by simp [hkN]⟩
    have hrowN : rowsWithKey new_df (keyOf rn) = [rn] := rowsWithKey_of_nodup hndN hrn
    have hrowE : rowsWithKey existing_df (keyOf rn) = [re] := by
      rw [hk]
      exact rowsWithKey_of_nodup hndE hre
    have hlastN : lastRowWithKey new_df (keyOf rn) = some rn :=
      lastRowWithKey_of_nodup hndN hrn
    have hlastE : lastRowWithKey existing_df (keyOf rn) = some re := by
      rw [hk]
      exact lastRowWithKey_of_nodup hndE hre
    have hdN : dictDate new_df (keyOf rn) = rn.Date := by
      unfold dictDate
      rw [hlastN]
      rfl
    have hdE : dictDate existing_df (keyOf rn) = re.Date := by
      unfold dictDate
      rw [hlastE]
      rfl
    have hmemkun : (keyOf rn ∈ keys_use_new new_df existing_df) ↔
        dateLe re.Date rn.Date = true := by
      unfold keys_use_new
      rw [List.mem_filter]
      constructor
      · rintro ⟨_, hd⟩
        rwa [dictDate_existing_overlap hov, dictDate_new_overlap hov, hdE, hdN] at hd
      · intro hd
        refine ⟨hov, ?_⟩
        rw [dictDate_existing_overlap hov, dictDate_new_overlap hov, hdE, hdN]
        exact hd
    have hmemkue : (keyOf rn ∈ keys_use_existing new_df existing_df) ↔
        ¬ dateLe re.Date rn.Date = true := by
      unfold keys_use_existing
      rw [List.mem_filter]
      constructor
      · rintro ⟨_, hd⟩
        rw [dictDate_existing_overlap hov, dictDate_new_overlap hov, hdE, hdN,
          Bool.not_eq_true'] at hd
        simp [hd]
      · intro hd
        refine ⟨hov, ?_⟩
        rw [dictDate_existing_overlap hov, dictDate_new_overlap hov, hdE, hdN,
          Bool.not_eq_true']
        exact Bool.not_eq_true _ ▸ Bool.of_not_eq_true hd
    have honk : ¬ keyOf rn ∈ only_new_keys new_df existing_df := by
      intro hmem
      exact of_decide_eq_true (List.mem_filter.mp hmem).2 hkE
    have hoek : ¬ keyOf rn ∈ only_existing_keys new_df existing_df := by
      intro hmem
      exact of_decide_eq_true (List.mem_filter.mp hmem).2 hkN
    have h1 : rowsWithKey (new_only_df new_df existing_df) (keyOf rn) = [] := by
      unfold new_only_df
      rw [rowsWithKey_filter_mem, if_neg honk]
    have h2 : rowsWithKey (existing_only_df new_df existing_df) (keyOf rn) = [] := by
      unfold existing_only_df
      rw [rowsWithKey_filter_mem, if_neg hoek]
    have hovN : rowsWithKey (new_overlap new_df existing_df) (keyOf rn) = [rn] := by
      unfold new_overlap
      rw [rowsWithKey_filter_mem, if_pos hov, hrowN]
    have hovE : rowsWithKey (existing_overlap new_df existing_df) (keyOf rn) = [re] := by
      unfold existing_overlap
      rw [rowsWithKey_filter_mem, if_pos hov, hrowE]
    have h3 : rowsWithKey (records_from_new new_df existing_df) (keyOf rn) =
        (if dateLe re.Date rn.Date then [rn] else []) := by
      unfold records_from_new
      rw [rowsWithKey_filter_mem]
      by_cases hD : dateLe re.Date rn.Date
      · rw [if_pos (hmemkun.mpr hD), if_pos hD, hovN]
      · rw [if_neg (fun hmem => hD (hmemkun.mp hmem)), if_neg hD]
    have h4 : rowsWithKey (records_from_existing new_df existing_df) (keyOf rn) =
        (if dateLe re.Date rn.Date then [] else [re]) := by
      unfold records_from_existing
      rw [rowsWithKey_filter_mem]
      by_cases hD : dateLe re.Date rn.Date
      · rw [if_neg (fun hmem => (hmemkue.mp hmem) hD), if_pos hD]
      · rw [if_pos (hmemkue.mpr hD), if_neg hD, hovE]
    unfold merge_with_existing_data
    rw [if_neg hneE]
    show rowsWithKey (new_only_df new_df existing_df ++ existing_only_df new_df existing_df ++
      records_from_new new_df existing_df ++ records_from_existing new_df existing_df)
        (keyOf rn) = _
    rw [rowsWithKey_append, rowsWithKey_append, rowsWithKey_append, h1, h2, h3, h4]
    by_cases hD : dateLe re.Date rn.Date <;> simp [hD]
  · have hval : (merge_with_existing_data new_df existing_df).2.2 =
        status_updates_count new_df existing_df := by
      unfold merge_with_existing_data
      rw [if_neg hneE]
    rw [hval]
    unfold status_updates_count keys_use_new
    rw [List.filter_filter]
    congr 1
    apply List.filter_congr
    intro k hk
    rw [dictStatus_new_overlap hk, dictStatus_existing_overlap hk,
      dictDate_existing_overlap hk, dictDate_new_overlap hk]
    exact Bool.and_comm _ _

/-- Instantiation of `merge_recency_c1` on the spec's Open/Converted
example rows. -/
theorem merge_recency_c1_witness :
    merge_with_existing_data [c1new] [c1exist] = ([c1new], 0, 1) :=
  (merge_recency_c1 [c1new] [c1exist] (by decide) (by decide)
    (by decide) (by decide)).2.2.2.2

/-- C3 counterexample: a non-empty new table missing the Month column
against an empty existing table makes the merge proceed (returning the
new table unchanged) instead of failing with any schema error, so no
`MergeSchemaError` is raised; indeed the repository defines no such
error. -/
theorem merge_schema_c3_counterexample :
    mergeColumnCheck ⟨["Mobile", "Year", "Date"], true⟩
      ⟨["Mobile", "Month", "Year", "Date"], false⟩ = .proceeds := by
  decide

/-- C3 amended: the merge performs no schema validation and the code
defines no `MergeSchemaError`: with an empty existing table it proceeds
regardless of missing composite-key columns, and with a non-empty
existing table a missing Mobile/Month/Year/Date column raises a pandas
`KeyError` naming the first missing column, the new table being checked
first. -/
theorem merge_schema_c3_amended (nf ef : Frame) :
    (ef.nonempty = false → mergeColumnCheck nf ef = .proceeds) ∧
    (ef.nonempty = true → ∀ c, firstMissingCol nf = some c →
      mergeColumnCheck nf ef = .keyError c) ∧
    (ef.nonempty = true → firstMissingCol nf = none → ∀ c, firstMissingCol ef = some c →
      mergeColumnCheck nf ef = .keyError c) ∧
    (ef.nonempty = true → firstMissingCol nf = none → firstMissingCol ef = none →
      mergeColumnCheck nf ef = .proceeds) := by
  refine ⟨?_, ?_, ?_, ?_⟩
  · intro h
    simp [mergeColumnCheck, h]
  · intro h c hc
    simp [mergeColumnCheck, h, hc]
  · intro h hn c hc
    simp [mergeColumnCheck, h, hn, hc]
  · intro h hn he
    simp [mergeColumnCheck, h, hn, he]

/-- Instantiation of `merge_schema_c3_amended`: a non-empty new table
missing Month against a non-empty existing table raises KeyError
"Month". -/
theorem merge_schema_c3_amended_witness :
    mergeColumnCheck ⟨["Mobile", "Year", "Date"], true⟩
      ⟨["Mobile", "Month", "Year", "Date"], true⟩ = .keyError "Month" :=
  (merge_schema_c3_amended ⟨["Mobile", "Year", "Date"], true⟩
    ⟨["Mobile", "Month", "Year", "Date"], true⟩).2.1 rfl "Month" (by decide)

/-- Instantiation of `unknown_status_c10` on a group holding one unknown
and one known status. -/
theorem unknown_status_c10_witness :
    (∀ s, s ∉ knownStatuses → statusPriority s = 0) ∧
    statusPriority "Open" = 1 ∧
    (∀ s, s ∈ knownStatuses → 1 ≤ statusPriority s) ∧
    ∃ g, (dedupe_salesforce_by_priority [sfW3, sfW4]).filter
        (fun r => decide (sfKey r = ("9000000002", 2024, 1))) = [g] ∧
      g ∈ [sfW3, sfW4] ∧ sfKey g = ("9000000002", 2024, 1) ∧ g.Status ∈ knownStatuses :=
  unknown_status_c10 [sfW3, sfW4] "9000000002" 2024 1 sfW4
    (by decide) (by decide) (by decide)

end Pnm
